import Mathlib

/-!
Verification of the rosautodoc documentation generator.

The development shallowly embeds the aggregation and rendering core of the
tool: the format converters (formatConverters.py), the per-node interface
model NodeInfo and the aggregate writer RosDocWriter (docWriter.py), and the
call-interception relay RosMasterFunctions (masterProxy.py).

Modelling conventions:
 - Python strings are modelled as lists of characters (Str); string
   literals enter through String.data. Replacing a single-character pattern
   is a character map, startswith is List.isPrefixOf, and slicing is
   List.drop.
 - Python dicts (insertion ordered, update in place) are modelled as
   association lists with an update-or-append insert (dictInsert).
 - File writing is out of scope; the render functions return the list of
   lines that the code joins with newlines and writes.
 - Exceptions are modelled with Except / Option error components where a
   claim is about them.
-/

/-- Python strings as lists of characters. -/
abbrev Str := List Char

/-- Turn a Lean string literal into its character-list model. -/
def str (x : String) : Str := x.data

/-- Lexicographic comparison of code points, the order used by Python sorted
on strings. -/
def strLe : Str → Str → Bool
  | [], _ => true
  | _ :: _, [] => false
  | a :: as, b :: bs => if a = b then strLe as bs else decide (a < b)

/-- Insert into a sorted list, keeping existing equal elements first
(stability of Python sorted). -/
def insertSorted (x : Str) : List Str → List Str
  | [] => [x]
  | y :: ys => if strLe x y then x :: y :: ys else y :: insertSorted x ys

/-- The Python builtin sorted on a list of strings. -/
def sortStrs (l : List Str) : List Str := l.foldr insertSorted []

/-- Membership test used for the "in" operator on Python lists. -/
def strMem (x : Str) (l : List Str) : Bool := l.contains x

/-- Python dict lookup (dict.get / d[k]). -/
def dictGet {α : Type} : List (Str × α) → Str → Option α
  | [], _ => none
  | p :: rest, k => if p.1 = k then some p.2 else dictGet rest k

/-- Python dict key-membership test (k in d). -/
def dictHasKey {α : Type} : List (Str × α) → Str → Bool
  | [], _ => false
  | p :: rest, k => p.1 = k || dictHasKey rest k

/-- Python dict assignment d[k] = v: overwrite the binding in place when the
key exists (keys are unique in a dict), append at the end otherwise. -/
def dictInsert {α : Type} : List (Str × α) → Str → α → List (Str × α)
  | [], k, v => [(k, v)]
  | p :: rest, k, v => if p.1 = k then (k, v) :: rest else p :: dictInsert rest k v

/-- Python dict key view (d.keys(), in insertion order). -/
def dictKeys {α : Type} (m : List (Str × α)) : List Str := m.map (fun p => p.1)

/-! ## formatConverters.py -/

/-- Format identifier "markdown". -/
def MARKDOWN : Str := str "markdown"

/-- Format identifier "html". -/
def HTML : Str := str "html"

/-- SUPPORTED_DOC_FORMATS from formatConverters.py. -/
def SUPPORTED_DOC_FORMATS : List Str := [MARKDOWN, HTML]

/-- The extensionMap dict built inside FileExtension.get. -/
def extensionMap : List (Str × Str) := [(MARKDOWN, str "md"), (HTML, str "html")]

/-- FileExtension.get: extensionMap.get(docFormat), None when absent. -/
def FileExtension.get (docFormat : Str) : Option Str := dictGet extensionMap docFormat

/-- Python str.strip: drop whitespace from both ends. -/
def pyStrip (l : Str) : Str :=
  ((l.dropWhile Char.isWhitespace).reverse.dropWhile Char.isWhitespace).reverse

/-- One iteration of the loop in MarkdownToHtml.convert. The state is the
output accumulated so far paired with the writingList flag. -/
def convertStep (st : List Str × Bool) (line : Str) : List Str × Bool :=
  let htmlLines := st.1
  let writingList := st.2
  if List.isPrefixOf (str "## ") line then
    let out := if writingList then htmlLines ++ [str "</ul>"] else htmlLines
    (out ++ [str "<h2>" ++ line.drop 3 ++ str "</h2>"], false)
  else if List.isPrefixOf (str "# ") line then
    let out := if writingList then htmlLines ++ [str "</ul>"] else htmlLines
    (out ++ [str "<h1>" ++ line.drop 2 ++ str "</h1>"], false)
  else if List.isPrefixOf (str "- ") line then
    let out := if writingList then htmlLines else htmlLines ++ [str "<ul>"]
    (out ++ [str "<li>" ++ line.drop 2 ++ str "</li>"], true)
  else if (pyStrip line).length > 0 then
    let out := if writingList then htmlLines ++ [str "</ul>"] else htmlLines
    (out ++ [str "<p>" ++ line ++ str "</p>"], false)
  else
    let out := if writingList then htmlLines ++ [str "</ul>"] else htmlLines
    (out ++ [line], false)

/-- MarkdownToHtml.convert. The two-element preamble mirrors the source,
where "<head>" "</head>" is one implicitly concatenated Python literal. -/
def MarkdownToHtml.convert (lines : List Str) : List Str :=
  let init : List Str × Bool := ([str "<html>", str "<head>" ++ str "</head>"], false)
  let res := lines.foldl convertStep init
  (if res.2 then res.1 ++ [str "</ul>"] else res.1) ++ [str "</html>"]

/-! ## docWriter.py : NodeInfo -/

/-- TODO_DESC from docWriter.py. -/
def TODO_DESC : Str := str "TODO: description"

/-- The NodeInfo class state: node name, parameter list, and the three
name-to-type dicts. -/
structure NodeInfo where
  nodeName : Str
  params : List Str
  pubs : List (Str × Str)
  subs : List (Str × Str)
  services : List (Str × Str)
deriving DecidableEq

/-- NodeInfo.__init__. -/
def NodeInfo.init (nodeName : Str) : NodeInfo :=
  { nodeName := nodeName, params := [], pubs := [], subs := [], services := [] }

/-- NodeInfo.getCleanName: replace every "/" with "_" (a single-character
replace is a character map), then strip one leading underscore. -/
def NodeInfo.getCleanName (ni : NodeInfo) : Str :=
  let cleanNodeName := ni.nodeName.map (fun c => if c = '/' then '_' else c)
  if List.isPrefixOf (str "_") cleanNodeName then cleanNodeName.drop 1
  else cleanNodeName

/-- NodeInfo.addParam: append the parameter when it is not already there. -/
def NodeInfo.addParam (ni : NodeInfo) (param : Str) : NodeInfo :=
  if strMem param ni.params then ni
  else { ni with params := ni.params ++ [param] }

/-- NodeInfo.addPub: dict assignment self.__pubs[topic] = pubType. -/
def NodeInfo.addPub (ni : NodeInfo) (topic pubType : Str) : NodeInfo :=
  { ni with pubs := dictInsert ni.pubs topic pubType }

/-- NodeInfo.addSub: dict assignment self.__subs[topic] = subType. -/
def NodeInfo.addSub (ni : NodeInfo) (topic subType : Str) : NodeInfo :=
  { ni with subs := dictInsert ni.subs topic subType }

/-- NodeInfo.addService: dict assignment self.__services[service] = serviceType. -/
def NodeInfo.addService (ni : NodeInfo) (service serviceType : Str) : NodeInfo :=
  { ni with services := dictInsert ni.services service serviceType }

/-- NodeInfo.__removeNamespace: when the name starts with the node name,
replace that first occurrence with a tilde. -/
def NodeInfo.removeNamespace (ni : NodeInfo) (namesp : Str) : Str :=
  if List.isPrefixOf ni.nodeName namesp then
    str "~" ++ namesp.drop ni.nodeName.length
  else namesp

/-- The line "- name [type] -- TODO: description" for a typed entry. -/
def entryLine (name ty : Str) : Str :=
  str "- " ++ name ++ str " [" ++ ty ++ str "] -- " ++ TODO_DESC

/-- The body of NodeInfo.document before writing: the list of generated
lines. The dict lookups on sorted keys use the stored value (the key is
present because it was taken from the dict). -/
def NodeInfo.documentLines (ni : NodeInfo) : List Str :=
  [str "# The " ++ ni.nodeName ++ str " node", str ""]
  ++ [str "## Parameters:"]
  ++ (sortStrs ni.params).map (fun name =>
      str "- " ++ ni.removeNamespace name ++ str " [TODO: type] -- " ++ TODO_DESC)
  ++ [str "", str "## Services:"]
  ++ (sortStrs (dictKeys ni.services)).map (fun name =>
      entryLine (ni.removeNamespace name) ((dictGet ni.services name).getD (str "")))
  ++ [str "", str "## Subscribers:"]
  ++ (sortStrs (dictKeys ni.subs)).map (fun name =>
      entryLine (ni.removeNamespace name) ((dictGet ni.subs name).getD (str "")))
  ++ [str "", str "## Publishers:"]
  ++ (sortStrs (dictKeys ni.pubs)).map (fun name =>
      entryLine (ni.removeNamespace name) ((dictGet ni.pubs name).getD (str "")))

/-- The lines NodeInfo.document writes to the file: converted when the
format is html, the markdown lines otherwise. -/
def NodeInfo.documentFileLines (ni : NodeInfo) (docFormat : Str) : List Str :=
  if docFormat = HTML then MarkdownToHtml.convert ni.documentLines
  else ni.documentLines

/-! ## docWriter.py : RosDocWriter -/

/-- The RosDocWriter class state: the monitored name list and the dict of
NodeInfo objects keyed by node name. -/
structure RosDocWriter where
  nodeNames : List Str
  nodes : List (Str × NodeInfo)
deriving DecidableEq

/-- RosDocWriter.__init__: remember the name list and pre-populate one
NodeInfo per listed name. -/
def RosDocWriter.init (nodeNames : List Str) : RosDocWriter :=
  { nodeNames := nodeNames
    nodes := nodeNames.foldl (fun m n => dictInsert m n (NodeInfo.init n)) [] }

/-- RosDocWriter.__hasNode: the name list is empty or the name is a key of
the nodes dict. -/
def RosDocWriter.hasNode (w : RosDocWriter) (nodeName : Str) : Bool :=
  w.nodeNames.length = 0 || dictHasKey w.nodes nodeName

/-- RosDocWriter.__getNode: create the entry when absent, then return it. -/
def RosDocWriter.getNode (w : RosDocWriter) (nodeName : Str) : NodeInfo :=
  (dictGet w.nodes nodeName).getD (NodeInfo.init nodeName)

/-- Store back the NodeInfo that __getNode returned after a mutation; a new
entry lands at the end of the dict, an existing one keeps its slot. -/
def RosDocWriter.setNode (w : RosDocWriter) (nodeName : Str) (ni : NodeInfo) : RosDocWriter :=
  { w with nodes := dictInsert w.nodes nodeName ni }

/-- RosDocWriter.addParam. -/
def RosDocWriter.addParam (w : RosDocWriter) (nodeName param : Str) : RosDocWriter :=
  if w.hasNode nodeName then w.setNode nodeName ((w.getNode nodeName).addParam param)
  else w

/-- RosDocWriter.addPub. -/
def RosDocWriter.addPub (w : RosDocWriter) (nodeName topic pubType : Str) : RosDocWriter :=
  if w.hasNode nodeName then w.setNode nodeName ((w.getNode nodeName).addPub topic pubType)
  else w

/-- RosDocWriter.addSub. -/
def RosDocWriter.addSub (w : RosDocWriter) (nodeName topic subType : Str) : RosDocWriter :=
  if w.hasNode nodeName then w.setNode nodeName ((w.getNode nodeName).addSub topic subType)
  else w

/-- RosDocWriter.addService. -/
def RosDocWriter.addService (w : RosDocWriter) (nodeName service serviceType : Str) : RosDocWriter :=
  if w.hasNode nodeName then
    w.setNode nodeName ((w.getNode nodeName).addService service serviceType)
  else w

/-- The manifest base filename chosen by RosDocWriter.__writeManifest. -/
def manifestBaseName (docFormat : Str) : Str :=
  if docFormat = HTML then str "index" else str "README"

/-- Render an Option extension the way the %s format of Python renders it:
None prints as "None". -/
def formatExtension : Option Str → Str
  | some e => e
  | none => str "None"

/-- The full manifest filename "base.ext". -/
def manifestFileName (docFormat : Str) : Str :=
  manifestBaseName docFormat ++ str "." ++ formatExtension (FileExtension.get docFormat)

/-- The per-node link line of the manifest. -/
def manifestLink (docFormat nodeName cleanNodeName : Str) : Str :=
  if docFormat = HTML then
    str "- <a href=" ++ [Char.ofNat 34] ++ cleanNodeName ++ str ".html"
      ++ [Char.ofNat 34] ++ str ">" ++ nodeName ++ str "</a>"
  else
    str "- [" ++ nodeName ++ str "](" ++ cleanNodeName ++ str ".md)"

/-- The lines RosDocWriter.__writeManifest builds before conversion. The
first element mirrors the source, where the heading literal and the empty
literal after it are one implicitly concatenated Python string. -/
def manifestLines (w : RosDocWriter) (docFormat : Str) : List Str :=
  [str "# ROS system documentation" ++ str "", str "## Nodes", str ""]
  ++ (sortStrs (dictKeys w.nodes)).map (fun nodeName =>
      manifestLink docFormat nodeName ((w.getNode nodeName).getCleanName))

/-- The lines written to the manifest file: converted when html. -/
def manifestFileLines (w : RosDocWriter) (docFormat : Str) : List Str :=
  if docFormat = HTML then MarkdownToHtml.convert (manifestLines w docFormat)
  else manifestLines w docFormat

/-- RosDocWriter.document as a pure function: the files written, as pairs
of filename and content lines. One file per node, then the manifest when
the nodes dict is nonempty. -/
def RosDocWriter.documentOutputs (w : RosDocWriter) (docFormat : Str) : List (Str × List Str) :=
  w.nodes.map (fun p =>
    (p.2.getCleanName ++ str "." ++ formatExtension (FileExtension.get docFormat),
     p.2.documentFileLines docFormat))
  ++ (if w.nodes.length > 0 then [(manifestFileName docFormat, manifestFileLines w docFormat)]
      else [])

/-! ## Operation sequences over the writer -/

/-- One recording call on the aggregate writer. -/
inductive DocOp where
  | param (node p : Str)
  | pub (node topic ty : Str)
  | sub (node topic ty : Str)
  | service (node s ty : Str)
deriving DecidableEq

/-- The node name an operation is about. -/
def DocOp.node : DocOp → Str
  | .param n _ => n
  | .pub n _ _ => n
  | .sub n _ _ => n
  | .service n _ _ => n

/-- Apply one recording call. -/
def RosDocWriter.applyOp (w : RosDocWriter) : DocOp → RosDocWriter
  | .param n p => w.addParam n p
  | .pub n t ty => w.addPub n t ty
  | .sub n t ty => w.addSub n t ty
  | .service n s ty => w.addService n s ty

/-- Run a sequence of recording calls on a freshly constructed writer. -/
def RosDocWriter.run (nodeNames : List Str) (ops : List DocOp) : RosDocWriter :=
  ops.foldl RosDocWriter.applyOp (RosDocWriter.init nodeNames)

/-- The fact carried by a recording call is present in the state after the
call: the parameter is in the parameter list of the target node, or the
written type is stored under the topic or service key of the target node. -/
def factRecorded (w : RosDocWriter) (op : DocOp) : Prop :=
  match op with
  | .param n p => p ∈ ((w.applyOp op).getNode n).params
  | .pub n t ty => dictGet ((w.applyOp op).getNode n).pubs t = some ty
  | .sub n t ty => dictGet ((w.applyOp op).getNode n).subs t = some ty
  | .service n s ty => dictGet ((w.applyOp op).getNode n).services s = some ty

/-! ## masterProxy.py : RosMasterFunctions -/

/-- RosMasterMethods: the full enumerated ROS master API surface. -/
def RosMasterMethods : List Str :=
  [str "getPid", str "registerService", str "unregisterService",
   str "registerSubscriber", str "unregisterSubscriber",
   str "registerPublisher", str "unregisterPublisher", str "lookupNode",
   str "getPublishedTopics", str "getTopicTypes", str "getSystemState",
   str "getUri", str "lookupService", str "deleteParam", str "setParam",
   str "getParam", str "searchParam", str "subscribeParam",
   str "unsubscribeParam", str "hasParam", str "getParamNames"]

/-- FilterParameters: ROS parameters to ignore. -/
def FilterParameters : List Str := [str "/tcp_keepalive", str "/use_sim_time"]

/-- FilterPublishedTopic: published topics to ignore. -/
def FilterPublishedTopic : List Str := [str "/rosout"]

/-- FilterSubscribedTopics: subscribed topics to ignore (empty). -/
def FilterSubscribedTopics : List Str := []

/-- FilterServices: services to ignore (empty). -/
def FilterServices : List Str := []

/-- A callback (hook) takes the positional argument list and the writer and
returns the updated writer together with an optional raised exception; the
state mutations made before the raise survive, mirroring Python. An
argument list of the wrong arity raises a TypeError. -/
abbrev Hook := List Str → RosDocWriter → RosDocWriter × Option Str

/-- RosMasterFunctions._registerPublisher. -/
def registerPublisherCb : Hook := fun args w =>
  match args with
  | [callerId, topic, topicType, _callerApi] =>
      (if ¬ strMem topic FilterPublishedTopic then w.addPub callerId topic topicType
       else w, none)
  | _ => (w, some (str "TypeError"))

/-- RosMasterFunctions._registerSubscriber. -/
def registerSubscriberCb : Hook := fun args w =>
  match args with
  | [callerId, topic, topicType, _callerApi] =>
      (if ¬ strMem topic FilterSubscribedTopics then w.addSub callerId topic topicType
       else w, none)
  | _ => (w, some (str "TypeError"))

/-- RosMasterFunctions._registerService: the service type is not in the
call, so the record carries the UNKNOWN marker. -/
def registerServiceCb : Hook := fun args w =>
  match args with
  | [callerId, service, _serviceApi, _callerApi] =>
      (if ¬ strMem service FilterServices then w.addService callerId service (str "UNKNOWN")
       else w, none)
  | _ => (w, some (str "TypeError"))

/-- RosMasterFunctions._getParam. -/
def getParamCb : Hook := fun args w =>
  match args with
  | [callerId, key] =>
      (if ¬ strMem key FilterParameters then w.addParam callerId key else w, none)
  | _ => (w, some (str "TypeError"))

/-- RosMasterFunctions._hasParam. -/
def hasParamCb : Hook := fun args w =>
  match args with
  | [callerId, key] =>
      (if ¬ strMem key FilterParameters then w.addParam callerId key else w, none)
  | _ => (w, some (str "TypeError"))

/-- RosMasterFunctions._setParam. -/
def setParamCb : Hook := fun args w =>
  match args with
  | [callerId, key, _value] =>
      (if ¬ strMem key FilterParameters then w.addParam callerId key else w, none)
  | _ => (w, some (str "TypeError"))

/-- The hasattr dispatch of __getWrapper: the callback registered for a
method name, when one exists. -/
def hookFor (method : Str) : Option Hook :=
  if method = str "registerPublisher" then some registerPublisherCb
  else if method = str "registerSubscriber" then some registerSubscriberCb
  else if method = str "registerService" then some registerServiceCb
  else if method = str "getParam" then some getParamCb
  else if method = str "hasParam" then some hasParamCb
  else if method = str "setParam" then some setParamCb
  else none

/-- The wrapper built by RosMasterFunctions.__getWrapper. The callback runs
first inside a try block whose except clause swallows every exception; then
the call is forwarded to the master with the original arguments and the
upstream answer (or the transport exception) is returned untouched. -/
def wrapCall (hook : Option Hook) (forward : List Str → Except Str Str)
    (args : List Str) (w : RosDocWriter) : Except Str Str × RosDocWriter :=
  let w1 := match hook with
    | none => w
    | some h => (h args w).1
  (forward args, w1)

/-- The callable the proxy exposes for a given master method name. -/
def methodWrapper (method : Str) (forward : List Str → Except Str Str)
    (args : List Str) (w : RosDocWriter) : Except Str Str × RosDocWriter :=
  wrapCall (hookFor method) forward args w

/-! ## Operation sequences over one NodeInfo -/

/-- One mutating call on a single NodeInfo. -/
inductive NIOp where
  | param (p : Str)
  | pub (t ty : Str)
  | sub (t ty : Str)
  | service (s ty : Str)
deriving DecidableEq

/-- Apply one mutating call to a NodeInfo. -/
def NodeInfo.applyNIOp (ni : NodeInfo) : NIOp → NodeInfo
  | .param p => ni.addParam p
  | .pub t ty => ni.addPub t ty
  | .sub t ty => ni.addSub t ty
  | .service s ty => ni.addService s ty

/-- Run a call sequence on a fresh NodeInfo. -/
def NodeInfo.runNIOps (nodeName : Str) (ops : List NIOp) : NodeInfo :=
  ops.foldl NodeInfo.applyNIOp (NodeInfo.init nodeName)

/-- The last type written for publication topic t by a call sequence. -/
def lastPubWrite (t : Str) (ops : List NIOp) : Option Str :=
  ops.foldl (fun acc op => match op with
    | NIOp.pub t2 ty => if t = t2 then some ty else acc
    | _ => acc) none

/-- The last type written for subscription topic t by a call sequence. -/
def lastSubWrite (t : Str) (ops : List NIOp) : Option Str :=
  ops.foldl (fun acc op => match op with
    | NIOp.sub t2 ty => if t = t2 then some ty else acc
    | _ => acc) none

/-- The last type written for service s by a call sequence. -/
def lastServiceWrite (s : Str) (ops : List NIOp) : Option Str :=
  ops.foldl (fun acc op => match op with
    | NIOp.service s2 ty => if s = s2 then some ty else acc
    | _ => acc) none

/-! ## Concrete scenario for claim C1 -/

/-- The tracked writer of the C1 scenario: node /talker, one publication
and one parameter recorded through the aggregate writer. -/
def talkerWriter : RosDocWriter :=
  RosDocWriter.run [str "/talker"]
    [DocOp.pub (str "/talker") (str "/chatter") (str "std_msgs/String"),
     DocOp.param (str "/talker") (str "/talker/rate")]

/-- The Markdown document rendered for /talker in the C1 scenario. -/
def talkerDoc : List Str :=
  (talkerWriter.getNode (str "/talker")).documentFileLines MARKDOWN

/-- Contiguous-substring test, used to look for a name inside a line. -/
def containsSeq (pat l : Str) : Bool := l.tails.any (fun t => List.isPrefixOf pat t)

/-! ## Generic lemmas about the dict model -/

theorem dictGet_insert {α : Type} (m : List (Str × α)) (k k2 : Str) (v : α) :
    dictGet (dictInsert m k v) k2 = if k2 = k then some v else dictGet m k2 := by
  induction m with
  | nil =>
    by_cases h : k2 = k
    · simp [dictInsert, dictGet, h]
    · have h2 : ¬ (k = k2) := fun he => h he.symm
      simp [dictInsert, dictGet, h, h2]
  | cons p rest ih =>
    by_cases hp : p.1 = k
    · by_cases h : k2 = k
      · simp [dictInsert, dictGet, hp, h]
      · have h2 : ¬ (k = k2) := fun he => h he.symm
        have h3 : ¬ (p.1 = k2) := fun he => h2 (hp ▸ he)
        simp [dictInsert, dictGet, hp, h, h2, h3]
    · by_cases hq : p.1 = k2
      · have h : ¬ (k2 = k) := fun he => hp (hq.trans he)
        simp [dictInsert, dictGet, hp, hq, h]
      · simp [dictInsert, dictGet, hp, hq, ih]

theorem dictGet_eq_none_of_not_hasKey {α : Type} (m : List (Str × α)) (k : Str)
    (h : dictHasKey m k = false) : dictGet m k = none := by
  induction m with
  | nil => simp [dictGet]
  | cons p rest ih =>
    simp only [dictHasKey, Bool.or_eq_false_iff, decide_eq_false_iff_not] at h
    simp [dictGet, h.1, ih h.2]

theorem dictKeys_insert_of_hasKey {α : Type} (m : List (Str × α)) (k : Str) (v : α)
    (h : dictHasKey m k = true) : dictKeys (dictInsert m k v) = dictKeys m := by
  induction m with
  | nil => simp [dictHasKey] at h
  | cons p rest ih =>
    by_cases hp : p.1 = k
    · simp [dictInsert, dictKeys, hp]
    · simp only [dictHasKey, Bool.or_eq_true, decide_eq_true_eq] at h
      have h2 : dictHasKey rest k = true := by
        rcases h with h | h
        · exact absurd h hp
        · exact h
      have := ih h2
      simp only [dictKeys] at this
      simp [dictInsert, dictKeys, hp, this]

theorem dictKeys_insert_of_not_hasKey {α : Type} (m : List (Str × α)) (k : Str) (v : α)
    (h : dictHasKey m k = false) : dictKeys (dictInsert m k v) = dictKeys m ++ [k] := by
  induction m with
  | nil => simp [dictInsert, dictKeys]
  | cons p rest ih =>
    simp only [dictHasKey, Bool.or_eq_false_iff, decide_eq_false_iff_not] at h
    have := ih h.2
    simp only [dictKeys] at this
    simp [dictInsert, dictKeys, h.1, this]

theorem dictHasKey_iff_mem_keys {α : Type} (m : List (Str × α)) (k : Str) :
    dictHasKey m k = true ↔ k ∈ dictKeys m := by
  induction m with
  | nil => simp [dictHasKey, dictKeys]
  | cons p rest ih =>
    simp only [dictHasKey, Bool.or_eq_true, decide_eq_true_eq, dictKeys, List.map_cons,
      List.mem_cons]
    simp only [dictKeys] at ih
    rw [ih]
    constructor
    · rintro (h | h)
      · exact Or.inl h.symm
      · exact Or.inr h
    · rintro (h | h)
      · exact Or.inl h.symm
      · exact Or.inr h

theorem mem_keys_insert {α : Type} (m : List (Str × α)) (k k2 : Str) (v : α) :
    k2 ∈ dictKeys (dictInsert m k v) ↔ k2 ∈ dictKeys m ∨ k2 = k := by
  by_cases h : dictHasKey m k
  · rw [dictKeys_insert_of_hasKey m k v h]
    constructor
    · exact Or.inl
    · rintro (hm | he)
      · exact hm
      · subst he
        exact (dictHasKey_iff_mem_keys m k2).1 h
  · rw [dictKeys_insert_of_not_hasKey m k v (by simpa using h)]
    simp

theorem strMem_iff (x : Str) (l : List Str) : strMem x l = true ↔ x ∈ l := by
  simp [strMem]

/-- C1 counterexample: in the document rendered for the tracked node
/talker, no line contains the character sequence "~rate" at all, so the
Parameters section has no list entry for "~rate": the parameter renders as
"~/rate" (the prefix "/talker" is replaced by "~" and the remainder
"/rate", slash included, is retained). -/
theorem C1_counterexample :
    talkerDoc.all (fun line => ! containsSeq (str "~rate") line) = true := by decide

/-- C1 (amended): rendering the tracked node /talker after
addPublication("/chatter", "std_msgs/String") and
addParameter("/talker/rate") yields exactly the Markdown document below:
the Parameters section carries the entry
"- ~/rate [TODO: type] -- TODO: description" and the Publishers section
carries the entry "- /chatter [std_msgs/String] -- TODO: description". -/
theorem C1_end_to_end_render :
    talkerDoc =
      [str "# The /talker node", str "",
       str "## Parameters:",
       str "- ~/rate [TODO: type] -- TODO: description",
       str "", str "## Services:",
       str "", str "## Subscribers:",
       str "", str "## Publishers:",
       str "- /chatter [std_msgs/String] -- TODO: description"] ∧
    (str "- ~/rate [TODO: type] -- TODO: description") ∈ talkerDoc ∧
    (str "- /chatter [std_msgs/String] -- TODO: description") ∈ talkerDoc := by
  refine ⟨by decide, by decide, by decide⟩

/-- C5: namespaceRelative within node /foo sends "/foo/bar" to the tilde
prefix followed by the retained remainder "/bar" and leaves "/other/bar"
unchanged; the add operations store the fully-qualified name untouched and
only the rendering pass applies the transformation. -/
theorem C5_namespaceRelative :
    (NodeInfo.init (str "/foo")).removeNamespace (str "/foo/bar") = str "~" ++ str "/bar" ∧
    (NodeInfo.init (str "/foo")).removeNamespace (str "/other/bar") = str "/other/bar" ∧
    ((NodeInfo.init (str "/foo")).addParam (str "/foo/bar")).params = [str "/foo/bar"] ∧
    ((NodeInfo.init (str "/foo")).addPub (str "/foo/t") (str "T")).pubs
      = [(str "/foo/t", str "T")] ∧
    (str "- ~/bar [TODO: type] -- TODO: description") ∈
      ((NodeInfo.init (str "/foo")).addParam (str "/foo/bar")).documentLines := by
  refine ⟨by decide, by decide, by decide, by decide, by decide⟩

/-- C6: the clean file stem depends only on the node name; on "/foo/bar"
it is "foo_bar" and on "foo" it is "foo"; every separator is replaced (on
"//a/b" both inner slashes become underscores) while exactly one leading
underscore is stripped; for any absolute name the stem is the slash to
underscore rewriting of the part after the leading separator, and for a
name starting with neither a separator nor an underscore-producing
character nothing is stripped. -/
theorem C6_canonicalFileStem :
    (∀ ni1 ni2 : NodeInfo, ni1.nodeName = ni2.nodeName →
      ni1.getCleanName = ni2.getCleanName) ∧
    (NodeInfo.init (str "/foo/bar")).getCleanName = str "foo_bar" ∧
    (NodeInfo.init (str "foo")).getCleanName = str "foo" ∧
    (NodeInfo.init (str "//a/b")).getCleanName = str "_a_b" ∧
    (∀ name : Str, (NodeInfo.init ('/' :: name)).getCleanName
      = name.map (fun c => if c = '/' then '_' else c)) ∧
    (∀ (c : Char) (name : Str), ¬ c = '/' → ¬ c = '_' →
      (NodeInfo.init (c :: name)).getCleanName
        = (c :: name).map (fun c2 => if c2 = '/' then '_' else c2)) := by
  refine ⟨?_, by decide, by decide, by decide, ?_, ?_⟩
  · intro ni1 ni2 h
    unfold NodeInfo.getCleanName
    rw [h]
  · intro name
    have h1 : str "_" = ['_'] := rfl
    simp [NodeInfo.getCleanName, NodeInfo.init, h1, List.isPrefixOf]
  · intro c name hc hu
    have h1 : str "_" = ['_'] := rfl
    have hcu : ¬ ('_' = c) := fun he => hu he.symm
    simp [NodeInfo.getCleanName, NodeInfo.init, h1, List.isPrefixOf, hc, hcu]

/-- C6 witness: the purity conjunct applied to two states with the same
name, and the no-strip conjunct applied at the name "abc". -/
theorem C6_canonicalFileStem_witness :
    (NodeInfo.init (str "/x")).getCleanName
      = ({ nodeName := str "/x", params := [str "p"], pubs := [], subs := [],
           services := [] } : NodeInfo).getCleanName ∧
    (NodeInfo.init (str "abc")).getCleanName
      = (str "abc").map (fun c2 => if c2 = '/' then '_' else c2) := by
  refine ⟨C6_canonicalFileStem.1 _ _ rfl, ?_⟩
  exact C6_canonicalFileStem.2.2.2.2.2 'a' (str "bc") (by decide) (by decide)

/-- C9: the format-to-extension map sends "markdown" to "md" and "html" to
"html", and every other identifier to None instead of failing. -/
theorem C9_extension_map_partial :
    FileExtension.get MARKDOWN = some (str "md") ∧
    FileExtension.get HTML = some (str "html") ∧
    (∀ docFormat : Str, ¬ docFormat = MARKDOWN → ¬ docFormat = HTML →
      FileExtension.get docFormat = none) := by
  refine ⟨by decide, by decide, ?_⟩
  intro f h1 h2
  have hm : ¬ (MARKDOWN = f) := fun he => h1 he.symm
  have hh : ¬ (HTML = f) := fun he => h2 he.symm
  simp [FileExtension.get, dictGet, extensionMap, hm, hh]

theorem addParam_pubs (ni : NodeInfo) (p : Str) : (ni.addParam p).pubs = ni.pubs := by
  unfold NodeInfo.addParam
  split <;> rfl

theorem addParam_subs (ni : NodeInfo) (p : Str) : (ni.addParam p).subs = ni.subs := by
  unfold NodeInfo.addParam
  split <;> rfl

theorem addParam_services (ni : NodeInfo) (p : Str) : (ni.addParam p).services = ni.services := by
  unfold NodeInfo.addParam
  split <;> rfl

theorem foldNI_pubs_get (t : Str) (ops : List NIOp) :
    ∀ ni : NodeInfo, dictGet (ops.foldl NodeInfo.applyNIOp ni).pubs t
      = ops.foldl (fun acc op => match op with
          | NIOp.pub t2 ty => if t = t2 then some ty else acc
          | _ => acc) (dictGet ni.pubs t) := by
  induction ops with
  | nil => intro ni; rfl
  | cons op rest ih =>
    intro ni
    cases op with
    | param p =>
      simp only [List.foldl_cons, NodeInfo.applyNIOp, ih, addParam_pubs]
    | pub t2 ty =>
      simp only [List.foldl_cons, NodeInfo.applyNIOp, ih, NodeInfo.addPub, dictGet_insert]
    | sub t2 ty =>
      simp only [List.foldl_cons, NodeInfo.applyNIOp, ih, NodeInfo.addSub]
    | service s2 ty =>
      simp only [List.foldl_cons, NodeInfo.applyNIOp, ih, NodeInfo.addService]

theorem foldNI_subs_get (t : Str) (ops : List NIOp) :
    ∀ ni : NodeInfo, dictGet (ops.foldl NodeInfo.applyNIOp ni).subs t
      = ops.foldl (fun acc op => match op with
          | NIOp.sub t2 ty => if t = t2 then some ty else acc
          | _ => acc) (dictGet ni.subs t) := by
  induction ops with
  | nil => intro ni; rfl
  | cons op rest ih =>
    intro ni
    cases op with
    | param p =>
      simp only [List.foldl_cons, NodeInfo.applyNIOp, ih, addParam_subs]
    | pub t2 ty =>
      simp only [List.foldl_cons, NodeInfo.applyNIOp, ih, NodeInfo.addPub]
    | sub t2 ty =>
      simp only [List.foldl_cons, NodeInfo.applyNIOp, ih, NodeInfo.addSub, dictGet_insert]
    | service s2 ty =>
      simp only [List.foldl_cons, NodeInfo.applyNIOp, ih, NodeInfo.addService]

theorem foldNI_services_get (s : Str) (ops : List NIOp) :
    ∀ ni : NodeInfo, dictGet (ops.foldl NodeInfo.applyNIOp ni).services s
      = ops.foldl (fun acc op => match op with
          | NIOp.service s2 ty => if s = s2 then some ty else acc
          | _ => acc) (dictGet ni.services s) := by
  induction ops with
  | nil => intro ni; rfl
  | cons op rest ih =>
    intro ni
    cases op with
    | param p =>
      simp only [List.foldl_cons, NodeInfo.applyNIOp, ih, addParam_services]
    | pub t2 ty =>
      simp only [List.foldl_cons, NodeInfo.applyNIOp, ih, NodeInfo.addPub]
    | sub t2 ty =>
      simp only [List.foldl_cons, NodeInfo.applyNIOp, ih, NodeInfo.addSub]
    | service s2 ty =>
      simp only [List.foldl_cons, NodeInfo.applyNIOp, ih, NodeInfo.addService, dictGet_insert]

theorem nodup_append_singleton {x : Str} {l : List Str} (h : l.Nodup) (hx : x ∉ l) :
    (l ++ [x]).Nodup := by
  simp [List.nodup_append, h, hx]

theorem dictKeys_insert_nodup {α : Type} (m : List (Str × α)) (k : Str) (v : α)
    (h : (dictKeys m).Nodup) : (dictKeys (dictInsert m k v)).Nodup := by
  by_cases hk : dictHasKey m k
  · rw [dictKeys_insert_of_hasKey m k v hk]
    exact h
  · rw [dictKeys_insert_of_not_hasKey m k v (by simpa using hk)]
    refine nodup_append_singleton h ?_
    intro hmem
    exact hk ((dictHasKey_iff_mem_keys m k).2 hmem)

theorem addParam_params_nodup (ni : NodeInfo) (p : Str) (h : ni.params.Nodup) :
    (ni.addParam p).params.Nodup := by
  unfold NodeInfo.addParam
  by_cases hm : strMem p ni.params
  · simp [hm, h]
  · simp only [hm, Bool.false_eq_true, reduceIte]
    refine nodup_append_singleton h ?_
    intro hmem
    exact hm ((strMem_iff _ _).2 hmem)

theorem runNI_nodup (ops : List NIOp) :
    ∀ ni : NodeInfo, ni.params.Nodup → (dictKeys ni.pubs).Nodup →
      (dictKeys ni.subs).Nodup → (dictKeys ni.services).Nodup →
      ((ops.foldl NodeInfo.applyNIOp ni).params.Nodup ∧
       (dictKeys (ops.foldl NodeInfo.applyNIOp ni).pubs).Nodup ∧
       (dictKeys (ops.foldl NodeInfo.applyNIOp ni).subs).Nodup ∧
       (dictKeys (ops.foldl NodeInfo.applyNIOp ni).services).Nodup) := by
  induction ops with
  | nil =>
    intro ni h1 h2 h3 h4
    exact ⟨h1, h2, h3, h4⟩
  | cons op rest ih =>
    intro ni h1 h2 h3 h4
    cases op with
    | param p =>
      simp only [List.foldl_cons, NodeInfo.applyNIOp]
      refine ih _ (addParam_params_nodup ni p h1) ?_ ?_ ?_
      · rw [addParam_pubs]; exact h2
      · rw [addParam_subs]; exact h3
      · rw [addParam_services]; exact h4
    | pub t ty =>
      simp only [List.foldl_cons, NodeInfo.applyNIOp]
      exact ih _ h1 (dictKeys_insert_nodup _ _ _ h2) h3 h4
    | sub t ty =>
      simp only [List.foldl_cons, NodeInfo.applyNIOp]
      exact ih _ h1 h2 (dictKeys_insert_nodup _ _ _ h3) h4
    | service s ty =>
      simp only [List.foldl_cons, NodeInfo.applyNIOp]
      exact ih _ h1 h2 h3 (dictKeys_insert_nodup _ _ _ h4)

/-- C4: over every call sequence on one NodeInfo, the stored type for a
publication, subscription or service key is the last value written for that
key (last-write-wins); re-adding a parameter is a no-op, and adding the
same parameter to a fresh node twice leaves exactly one entry; parameter
names and the keys of the three type dicts never repeat. -/
theorem C4_readdition_semantics :
    (∀ (nodeName t : Str) (ops : List NIOp),
      dictGet (NodeInfo.runNIOps nodeName ops).pubs t = lastPubWrite t ops) ∧
    (∀ (nodeName t : Str) (ops : List NIOp),
      dictGet (NodeInfo.runNIOps nodeName ops).subs t = lastSubWrite t ops) ∧
    (∀ (nodeName s : Str) (ops : List NIOp),
      dictGet (NodeInfo.runNIOps nodeName ops).services s = lastServiceWrite s ops) ∧
    (∀ (ni : NodeInfo) (t ty1 ty2 : Str),
      dictGet ((ni.addPub t ty1).addPub t ty2).pubs t = some ty2) ∧
    (∀ (ni : NodeInfo) (p : Str), (ni.addParam p).addParam p = ni.addParam p) ∧
    (∀ (nodeName p : Str), (((NodeInfo.init nodeName).addParam p).addParam p).params.length = 1) ∧
    (∀ (nodeName : Str) (ops : List NIOp),
      (NodeInfo.runNIOps nodeName ops).params.Nodup ∧
      (dictKeys (NodeInfo.runNIOps nodeName ops).pubs).Nodup ∧
      (dictKeys (NodeInfo.runNIOps nodeName ops).subs).Nodup ∧
      (dictKeys (NodeInfo.runNIOps nodeName ops).services).Nodup) := by
  refine ⟨?_, ?_, ?_, ?_, ?_, ?_, ?_⟩
  · intro nodeName t ops
    rw [NodeInfo.runNIOps, foldNI_pubs_get]
    rfl
  · intro nodeName t ops
    rw [NodeInfo.runNIOps, foldNI_subs_get]
    rfl
  · intro nodeName s ops
    rw [NodeInfo.runNIOps, foldNI_services_get]
    rfl
  · intro ni t ty1 ty2
    simp [NodeInfo.addPub, dictGet_insert]
  · intro ni p
    by_cases h : strMem p ni.params
    · simp [NodeInfo.addParam, h]
    · have h2 : strMem p (ni.params ++ [p]) = true := (strMem_iff _ _).2 (by simp)
      simp [NodeInfo.addParam, h, h2]
  · intro nodeName p
    have h0 : strMem p ([] : List Str) = false := rfl
    have h2 : strMem p [p] = true := (strMem_iff _ _).2 (by simp)
    simp [NodeInfo.init, NodeInfo.addParam, h0, h2]
  · intro nodeName ops
    exact runNI_nodup ops (NodeInfo.init nodeName) (by simp [NodeInfo.init])
      (by simp [NodeInfo.init, dictKeys]) (by simp [NodeInfo.init, dictKeys])
      (by simp [NodeInfo.init, dictKeys])

/-- C9 witness: the unknown-format conjunct applied at "pdf". -/
theorem C9_extension_map_partial_witness :
    ¬ (str "pdf") = MARKDOWN ∧ ¬ (str "pdf") = HTML ∧
      FileExtension.get (str "pdf") = none :=
  ⟨by decide, by decide, C9_extension_map_partial.2.2 (str "pdf") (by decide) (by decide)⟩

/-- C2: for every method of the enumerated master API the exposed wrapper
returns the upstream answer of the forwarded call on the original
arguments verbatim; when the registered callback raises (its exception
component is some), the exception is swallowed, the call is still
forwarded with the original arguments and the callback state (with every
mutation made before the raise) is kept; an error of the forwarding step
itself comes back to the caller unchanged. -/
theorem C2_hook_suppression :
    (∀ method : Str, method ∈ RosMasterMethods →
      ∀ (forward : List Str → Except Str Str) (args : List Str) (w : RosDocWriter),
        (methodWrapper method forward args w).1 = forward args) ∧
    (∀ (method : Str) (h : Hook), hookFor method = some h →
      ∀ (forward : List Str → Except Str Str) (args : List Str) (w : RosDocWriter),
        ((h args w).2).isSome = true →
          methodWrapper method forward args w = (forward args, (h args w).1)) ∧
    (∀ (method : Str) (forward : List Str → Except Str Str) (args : List Str)
        (w : RosDocWriter) (e : Str), forward args = Except.error e →
      (methodWrapper method forward args w).1 = Except.error e) := by
  refine ⟨?_, ?_, ?_⟩
  · intro method _ forward args w
    rfl
  · intro method h hm forward args w _
    simp only [methodWrapper, hm, wrapCall]
  · intro method forward args w e he
    exact he

/-- C2 witness: the getParam callback applied to an empty argument tuple
raises a TypeError which is suppressed while the call is still forwarded,
and a forwarding failure on getPid propagates. -/
theorem C2_hook_suppression_witness :
    (str "getParam") ∈ RosMasterMethods ∧
    hookFor (str "getParam") = some getParamCb ∧
    ((getParamCb [] (RosDocWriter.init [])).2).isSome = true ∧
    methodWrapper (str "getParam") (fun _ => Except.ok (str "resp")) [] (RosDocWriter.init [])
      = (Except.ok (str "resp"), (getParamCb [] (RosDocWriter.init [])).1) ∧
    (methodWrapper (str "getPid") (fun _ => Except.error (str "down")) []
      (RosDocWriter.init [])).1 = Except.error (str "down") := by
  refine ⟨by decide, rfl, rfl, ?_, ?_⟩
  · exact C2_hook_suppression.2.1 (str "getParam") getParamCb rfl
      (fun _ => Except.ok (str "resp")) [] (RosDocWriter.init []) rfl
  · exact C2_hook_suppression.2.2 (str "getPid") (fun _ => Except.error (str "down")) []
      (RosDocWriter.init []) (str "down") rfl

/-- C8: the default publisher exclusion list is exactly /rosout and the
default parameter exclusion list is exactly /tcp_keepalive and
/use_sim_time; a registerPublisher call on an excluded topic and a
getParam, hasParam or setParam call on an excluded key leave the writer
state untouched while the call is still forwarded and its answer
returned. -/
theorem C8_exclusion_filtering :
    FilterPublishedTopic = [str "/rosout"] ∧
    FilterParameters = [str "/tcp_keepalive", str "/use_sim_time"] ∧
    (∀ topic : Str, topic ∈ FilterPublishedTopic →
      ∀ (forward : List Str → Except Str Str) (callerId topicType callerApi : Str)
        (w : RosDocWriter),
        methodWrapper (str "registerPublisher") forward
            [callerId, topic, topicType, callerApi] w
          = (forward [callerId, topic, topicType, callerApi], w)) ∧
    (∀ key : Str, key ∈ FilterParameters →
      ∀ (forward : List Str → Except Str Str) (callerId value : Str) (w : RosDocWriter),
        methodWrapper (str "getParam") forward [callerId, key] w
          = (forward [callerId, key], w) ∧
        methodWrapper (str "hasParam") forward [callerId, key] w
          = (forward [callerId, key], w) ∧
        methodWrapper (str "setParam") forward [callerId, key, value] w
          = (forward [callerId, key, value], w)) := by
  refine ⟨by decide, by decide, ?_, ?_⟩
  · intro topic ht forward callerId topicType callerApi w
    have hmem : strMem topic FilterPublishedTopic = true := (strMem_iff _ _).2 ht
    have hh : hookFor (str "registerPublisher") = some registerPublisherCb := rfl
    simp only [methodWrapper, hh, wrapCall, registerPublisherCb, hmem]
    simp
  · intro key hk forward callerId value w
    have hmem : strMem key FilterParameters = true := (strMem_iff _ _).2 hk
    refine ⟨?_, ?_, ?_⟩
    · have hh : hookFor (str "getParam") = some getParamCb := rfl
      simp only [methodWrapper, hh, wrapCall, getParamCb, hmem]
      simp
    · have hh : hookFor (str "hasParam") = some hasParamCb := rfl
      simp only [methodWrapper, hh, wrapCall, hasParamCb, hmem]
      simp
    · have hh : hookFor (str "setParam") = some setParamCb := rfl
      simp only [methodWrapper, hh, wrapCall, setParamCb, hmem]
      simp

/-- C8 witness: the excluded topic /rosout and the excluded key
/tcp_keepalive, with a concrete forward answer. -/
theorem C8_exclusion_filtering_witness :
    (str "/rosout") ∈ FilterPublishedTopic ∧
    (str "/tcp_keepalive") ∈ FilterParameters ∧
    methodWrapper (str "registerPublisher") (fun _ => Except.ok (str "[1, ok, 1]"))
        [str "/talker", str "/rosout", str "rosgraph_msgs/Log", str "http://h:1"]
        (RosDocWriter.init [])
      = (Except.ok (str "[1, ok, 1]"), RosDocWriter.init []) ∧
    methodWrapper (str "getParam") (fun _ => Except.ok (str "[1, ok, true]"))
        [str "/talker", str "/tcp_keepalive"] (RosDocWriter.init [])
      = (Except.ok (str "[1, ok, true]"), RosDocWriter.init []) := by
  refine ⟨by decide, by decide, ?_, ?_⟩
  · exact C8_exclusion_filtering.2.2.1 (str "/rosout") (by decide)
      (fun _ => Except.ok (str "[1, ok, 1]")) (str "/talker") (str "rosgraph_msgs/Log")
      (str "http://h:1") (RosDocWriter.init [])
  · exact (C8_exclusion_filtering.2.2.2 (str "/tcp_keepalive") (by decide)
      (fun _ => Except.ok (str "[1, ok, true]")) (str "/talker") (str "x")
      (RosDocWriter.init [])).1

/-! ## Writer-level tracking lemmas -/

theorem addParam_nodeNames (w : RosDocWriter) (n p : Str) :
    (w.addParam n p).nodeNames = w.nodeNames := by
  unfold RosDocWriter.addParam
  split <;> rfl

theorem addPub_nodeNames (w : RosDocWriter) (n t ty : Str) :
    (w.addPub n t ty).nodeNames = w.nodeNames := by
  unfold RosDocWriter.addPub
  split <;> rfl

theorem addSub_nodeNames (w : RosDocWriter) (n t ty : Str) :
    (w.addSub n t ty).nodeNames = w.nodeNames := by
  unfold RosDocWriter.addSub
  split <;> rfl

theorem addService_nodeNames (w : RosDocWriter) (n s ty : Str) :
    (w.addService n s ty).nodeNames = w.nodeNames := by
  unfold RosDocWriter.addService
  split <;> rfl

theorem applyOp_nodeNames (w : RosDocWriter) (op : DocOp) :
    (w.applyOp op).nodeNames = w.nodeNames := by
  cases op with
  | param n p => exact addParam_nodeNames w n p
  | pub n t ty => exact addPub_nodeNames w n t ty
  | sub n t ty => exact addSub_nodeNames w n t ty
  | service n s ty => exact addService_nodeNames w n s ty

theorem foldl_nodeNames (ops : List DocOp) :
    ∀ w : RosDocWriter, (ops.foldl RosDocWriter.applyOp w).nodeNames = w.nodeNames := by
  induction ops with
  | nil => intro w; rfl
  | cons op rest ih =>
    intro w
    rw [List.foldl_cons, ih, applyOp_nodeNames]

theorem run_nodeNames (T : List Str) (ops : List DocOp) :
    (RosDocWriter.run T ops).nodeNames = T := by
  rw [RosDocWriter.run, foldl_nodeNames]
  rfl

theorem mem_keys_initFold (T : List Str) :
    ∀ (m0 : List (Str × NodeInfo)) (k : Str),
      k ∈ dictKeys (T.foldl (fun m n => dictInsert m n (NodeInfo.init n)) m0)
        ↔ k ∈ dictKeys m0 ∨ k ∈ T := by
  induction T with
  | nil => intro m0 k; simp
  | cons n T ih =>
    intro m0 k
    rw [List.foldl_cons, ih, mem_keys_insert]
    simp only [List.mem_cons]
    tauto

theorem mem_keys_init (T : List Str) (k : Str) :
    k ∈ dictKeys (RosDocWriter.init T).nodes ↔ k ∈ T := by
  have h := mem_keys_initFold T [] k
  have h0 : dictKeys ([] : List (Str × NodeInfo)) = [] := rfl
  rw [h0] at h
  have hn : (RosDocWriter.init T).nodes
      = T.foldl (fun m n => dictInsert m n (NodeInfo.init n)) [] := rfl
  rw [hn, h]
  simp

theorem hasNode_eq_hasKey (w : RosDocWriter) (h : ¬ w.nodeNames = []) (n : Str) :
    w.hasNode n = dictHasKey w.nodes n := by
  have hl : ¬ (w.nodeNames.length = 0) := by
    simp [List.length_eq_zero, h]
  simp [RosDocWriter.hasNode, hl]

theorem applyOp_keys_of_tracked (w : RosDocWriter) (op : DocOp) (h : ¬ w.nodeNames = []) :
    dictKeys (w.applyOp op).nodes = dictKeys w.nodes := by
  have hh := hasNode_eq_hasKey w h
  cases op with
  | param n p =>
    simp only [RosDocWriter.applyOp, RosDocWriter.addParam, hh n]
    by_cases hk : dictHasKey w.nodes n
    · simp [hk, RosDocWriter.setNode, dictKeys_insert_of_hasKey _ _ _ hk]
    · simp [hk]
  | pub n t ty =>
    simp only [RosDocWriter.applyOp, RosDocWriter.addPub, hh n]
    by_cases hk : dictHasKey w.nodes n
    · simp [hk, RosDocWriter.setNode, dictKeys_insert_of_hasKey _ _ _ hk]
    · simp [hk]
  | sub n t ty =>
    simp only [RosDocWriter.applyOp, RosDocWriter.addSub, hh n]
    by_cases hk : dictHasKey w.nodes n
    · simp [hk, RosDocWriter.setNode, dictKeys_insert_of_hasKey _ _ _ hk]
    · simp [hk]
  | service n s ty =>
    simp only [RosDocWriter.applyOp, RosDocWriter.addService, hh n]
    by_cases hk : dictHasKey w.nodes n
    · simp [hk, RosDocWriter.setNode, dictKeys_insert_of_hasKey _ _ _ hk]
    · simp [hk]

theorem foldl_keys_of_tracked (ops : List DocOp) :
    ∀ w : RosDocWriter, ¬ w.nodeNames = [] →
      dictKeys (ops.foldl RosDocWriter.applyOp w).nodes = dictKeys w.nodes := by
  induction ops with
  | nil => intro w _; rfl
  | cons op rest ih =>
    intro w h
    rw [List.foldl_cons]
    rw [ih _ (by rw [applyOp_nodeNames]; exact h)]
    exact applyOp_keys_of_tracked w op h

theorem keys_monotone_applyOp (w : RosDocWriter) (op : DocOp) (k : Str)
    (h : k ∈ dictKeys w.nodes) : k ∈ dictKeys (w.applyOp op).nodes := by
  cases op with
  | param n p =>
    simp only [RosDocWriter.applyOp, RosDocWriter.addParam]
    split
    · exact (mem_keys_insert _ _ _ _).2 (Or.inl h)
    · exact h
  | pub n t ty =>
    simp only [RosDocWriter.applyOp, RosDocWriter.addPub]
    split
    · exact (mem_keys_insert _ _ _ _).2 (Or.inl h)
    · exact h
  | sub n t ty =>
    simp only [RosDocWriter.applyOp, RosDocWriter.addSub]
    split
    · exact (mem_keys_insert _ _ _ _).2 (Or.inl h)
    · exact h
  | service n s ty =>
    simp only [RosDocWriter.applyOp, RosDocWriter.addService]
    split
    · exact (mem_keys_insert _ _ _ _).2 (Or.inl h)
    · exact h

theorem foldl_keys_monotone (ops : List DocOp) :
    ∀ (w : RosDocWriter) (k : Str), k ∈ dictKeys w.nodes →
      k ∈ dictKeys (ops.foldl RosDocWriter.applyOp w).nodes := by
  induction ops with
  | nil => intro w k h; exact h
  | cons op rest ih =>
    intro w k h
    rw [List.foldl_cons]
    exact ih _ k (keys_monotone_applyOp w op k h)

theorem hasNode_run_of_cond (T : List Str) (ops : List DocOp) (n : Str)
    (h : T = [] ∨ n ∈ T) : (RosDocWriter.run T ops).hasNode n = true := by
  rcases h with h | h
  · simp [RosDocWriter.hasNode, run_nodeNames, h]
  · have h1 : n ∈ dictKeys (RosDocWriter.init T).nodes := (mem_keys_init T n).2 h
    have h2 : n ∈ dictKeys (RosDocWriter.run T ops).nodes := by
      rw [RosDocWriter.run]
      exact foldl_keys_monotone ops _ n h1
    simp [RosDocWriter.hasNode, (dictHasKey_iff_mem_keys _ _).2 h2]

theorem hasNode_run_false (T : List Str) (ops : List DocOp) (n : Str)
    (hT : ¬ T = []) (hn : ¬ n ∈ T) : (RosDocWriter.run T ops).hasNode n = false := by
  have hkeys : dictKeys (RosDocWriter.run T ops).nodes = dictKeys (RosDocWriter.init T).nodes := by
    rw [RosDocWriter.run]
    exact foldl_keys_of_tracked ops _ (by rw [show (RosDocWriter.init T).nodeNames = T from rfl]; exact hT)
  have hmem : ¬ n ∈ dictKeys (RosDocWriter.run T ops).nodes := by
    rw [hkeys, mem_keys_init]
    exact hn
  have hkey : dictHasKey (RosDocWriter.run T ops).nodes n = false := by
    by_contra hc
    simp only [Bool.not_eq_false] at hc
    exact hmem ((dictHasKey_iff_mem_keys _ _).1 hc)
  rw [hasNode_eq_hasKey _ (by rw [run_nodeNames]; exact hT) n]
  exact hkey

theorem getNode_setNode_self (w : RosDocWriter) (n : Str) (ni : NodeInfo) :
    (w.setNode n ni).getNode n = ni := by
  simp [RosDocWriter.getNode, RosDocWriter.setNode, dictGet_insert]

theorem mem_addParam_self (ni : NodeInfo) (p : Str) : p ∈ (ni.addParam p).params := by
  by_cases h : strMem p ni.params
  · simp only [NodeInfo.addParam, h, reduceIte]
    exact (strMem_iff _ _).1 h
  · simp only [NodeInfo.addParam, h, Bool.false_eq_true, reduceIte]
    simp

theorem factRecorded_of_hasNode (w : RosDocWriter) (op : DocOp)
    (h : w.hasNode op.node = true) : factRecorded w op := by
  cases op with
  | param n p =>
    simp only [factRecorded, RosDocWriter.applyOp, RosDocWriter.addParam, DocOp.node] at *
    rw [if_pos h, getNode_setNode_self]
    exact mem_addParam_self _ p
  | pub n t ty =>
    simp only [factRecorded, RosDocWriter.applyOp, RosDocWriter.addPub, DocOp.node] at *
    rw [if_pos h, getNode_setNode_self]
    simp [NodeInfo.addPub, dictGet_insert]
  | sub n t ty =>
    simp only [factRecorded, RosDocWriter.applyOp, RosDocWriter.addSub, DocOp.node] at *
    rw [if_pos h, getNode_setNode_self]
    simp [NodeInfo.addSub, dictGet_insert]
  | service n s ty =>
    simp only [factRecorded, RosDocWriter.applyOp, RosDocWriter.addService, DocOp.node] at *
    rw [if_pos h, getNode_setNode_self]
    simp [NodeInfo.addService, dictGet_insert]

theorem applyOp_of_not_hasNode (w : RosDocWriter) (op : DocOp)
    (h : w.hasNode op.node = false) : w.applyOp op = w := by
  cases op with
  | param n p =>
    simp only [DocOp.node] at h
    simp [RosDocWriter.applyOp, RosDocWriter.addParam, h]
  | pub n t ty =>
    simp only [DocOp.node] at h
    simp [RosDocWriter.applyOp, RosDocWriter.addPub, h]
  | sub n t ty =>
    simp only [DocOp.node] at h
    simp [RosDocWriter.applyOp, RosDocWriter.addSub, h]
  | service n s ty =>
    simp only [DocOp.node] at h
    simp [RosDocWriter.applyOp, RosDocWriter.addService, h]

theorem getNode_of_not_hasKey (w : RosDocWriter) (n : Str)
    (h : dictHasKey w.nodes n = false) : w.getNode n = NodeInfo.init n := by
  simp [RosDocWriter.getNode, dictGet_eq_none_of_not_hasKey _ _ h]

theorem not_factRecorded (T : List Str) (ops : List DocOp) (op : DocOp)
    (hT : ¬ T = []) (hn : ¬ op.node ∈ T) :
    ¬ factRecorded (RosDocWriter.run T ops) op := by
  have hfalse : (RosDocWriter.run T ops).hasNode op.node = false :=
    hasNode_run_false T ops op.node hT hn
  have happ : (RosDocWriter.run T ops).applyOp op = RosDocWriter.run T ops :=
    applyOp_of_not_hasNode _ op hfalse
  have hkey : dictHasKey (RosDocWriter.run T ops).nodes op.node = false := by
    rw [hasNode_eq_hasKey _ (by rw [run_nodeNames]; exact hT) op.node] at hfalse
    exact hfalse
  have hget : (RosDocWriter.run T ops).getNode op.node = NodeInfo.init op.node :=
    getNode_of_not_hasKey _ _ hkey
  cases op with
  | param n p =>
    simp only [DocOp.node] at hget
    simp [factRecorded, happ, hget, NodeInfo.init]
  | pub n t ty =>
    simp only [DocOp.node] at hget
    simp [factRecorded, happ, hget, NodeInfo.init, dictGet]
  | sub n t ty =>
    simp only [DocOp.node] at hget
    simp [factRecorded, happ, hget, NodeInfo.init, dictGet]
  | service n s ty =>
    simp only [DocOp.node] at hget
    simp [factRecorded, happ, hget, NodeInfo.init, dictGet]

/-- C3: a fact recorded through the aggregate writer lands in the state
exactly when the tracked list is empty or the target node is in it; with
tracked list ["/a"] a fact for "/b" leaves the writer bit-for-bit unchanged
and creates no entry; with an empty tracked list the target node of any
call owns an entry afterwards; and no recording call ever removes a node
entry. -/
theorem C3_tracking_invariant :
    (∀ (T : List Str) (ops : List DocOp) (op : DocOp),
      factRecorded (RosDocWriter.run T ops) op ↔ (T = [] ∨ op.node ∈ T)) ∧
    (RosDocWriter.run [str "/a"] [DocOp.param (str "/b") (str "rate")]
        = RosDocWriter.init [str "/a"] ∧
      dictKeys (RosDocWriter.run [str "/a"] [DocOp.param (str "/b") (str "rate")]).nodes
        = [str "/a"]) ∧
    (∀ (ops : List DocOp) (op : DocOp),
      op.node ∈ dictKeys ((RosDocWriter.run [] ops).applyOp op).nodes) ∧
    (∀ (T : List Str) (ops : List DocOp) (op : DocOp) (k : Str),
      k ∈ dictKeys (RosDocWriter.run T ops).nodes →
      k ∈ dictKeys ((RosDocWriter.run T ops).applyOp op).nodes) := by
  refine ⟨?_, ⟨by decide, by decide⟩, ?_, ?_⟩
  · intro T ops op
    constructor
    · intro hf
      by_contra hc
      push_neg at hc
      exact not_factRecorded T ops op hc.1 hc.2 hf
    · intro hc
      exact factRecorded_of_hasNode _ op (hasNode_run_of_cond T ops op.node hc)
  · intro ops op
    have h : (RosDocWriter.run [] ops).hasNode op.node = true := by
      simp [RosDocWriter.hasNode, run_nodeNames]
    cases op with
    | param n p =>
      simp only [DocOp.node] at *
      simp only [RosDocWriter.applyOp, RosDocWriter.addParam, h, if_pos, RosDocWriter.setNode]
      exact (mem_keys_insert _ _ _ _).2 (Or.inr rfl)
    | pub n t ty =>
      simp only [DocOp.node] at *
      simp only [RosDocWriter.applyOp, RosDocWriter.addPub, h, if_pos, RosDocWriter.setNode]
      exact (mem_keys_insert _ _ _ _).2 (Or.inr rfl)
    | sub n t ty =>
      simp only [DocOp.node] at *
      simp only [RosDocWriter.applyOp, RosDocWriter.addSub, h, if_pos, RosDocWriter.setNode]
      exact (mem_keys_insert _ _ _ _).2 (Or.inr rfl)
    | service n s ty =>
      simp only [DocOp.node] at *
      simp only [RosDocWriter.applyOp, RosDocWriter.addService, h, if_pos, RosDocWriter.setNode]
      exact (mem_keys_insert _ _ _ _).2 (Or.inr rfl)
  · intro T ops op k h
    exact keys_monotone_applyOp _ op k h

/-- C3 witness: the no-deletion conjunct applied to the concrete tracked
writer ["/a"] hit by a call for "/b", and the recorded-iff conjunct at an
empty tracked list. -/
theorem C3_tracking_invariant_witness :
    ((str "/a") ∈ dictKeys (RosDocWriter.run [str "/a"] []).nodes ∧
      (str "/a") ∈ dictKeys
        ((RosDocWriter.run [str "/a"] []).applyOp (DocOp.param (str "/b") (str "rate"))).nodes) ∧
    factRecorded (RosDocWriter.run [] []) (DocOp.param (str "/b") (str "rate")) := by
  refine ⟨⟨by decide, ?_⟩, ?_⟩
  · exact C3_tracking_invariant.2.2.2 [str "/a"] [] (DocOp.param (str "/b") (str "rate"))
      (str "/a") (by decide)
  · exact (C3_tracking_invariant.1 [] [] (DocOp.param (str "/b") (str "rate"))).2 (Or.inl rfl)

/-- C7: documenting writes no file at all when no node entry exists and
writes the manifest whenever one does; the manifest is index.<ext> for
html and README.<ext> for every other format; its content is the top
heading (with the blank separator fused into it by the implicit Python
string concatenation, so the Nodes subheading follows on the very next
line), the Nodes subheading, a blank line, then one link per node sorted
lexicographically by node name and pointing at the clean-name file; on the
nodes /a/b and /aZ the manifest orders /a/b first although the clean
stems sort the other way around. -/
theorem C7_manifest_generation :
    (∀ (w : RosDocWriter) (docFormat : Str), w.nodes = [] →
      w.documentOutputs docFormat = []) ∧
    (∀ (w : RosDocWriter) (docFormat : Str), ¬ w.nodes = [] →
      (manifestFileName docFormat, manifestFileLines w docFormat)
        ∈ w.documentOutputs docFormat) ∧
    manifestFileName HTML = str "index.html" ∧
    manifestFileName MARKDOWN = str "README.md" ∧
    (∀ docFormat : Str, ¬ docFormat = HTML → manifestBaseName docFormat = str "README") ∧
    (∀ (w : RosDocWriter) (docFormat : Str),
      manifestLines w docFormat
        = [str "# ROS system documentation", str "## Nodes", str ""]
          ++ (sortStrs (dictKeys w.nodes)).map (fun nodeName =>
              manifestLink docFormat nodeName ((w.getNode nodeName).getCleanName))) ∧
    (manifestLines (RosDocWriter.run [str "/a/b", str "/aZ"] []) MARKDOWN
        = [str "# ROS system documentation", str "## Nodes", str "",
           str "- [/a/b](a_b.md)", str "- [/aZ](aZ.md)"] ∧
      sortStrs [(NodeInfo.init (str "/a/b")).getCleanName,
                (NodeInfo.init (str "/aZ")).getCleanName]
        = [(NodeInfo.init (str "/aZ")).getCleanName,
           (NodeInfo.init (str "/a/b")).getCleanName]) := by
  refine ⟨?_, ?_, by decide, by decide, ?_, ?_, by decide, by decide⟩
  · intro w docFormat h
    simp [RosDocWriter.documentOutputs, h]
  · intro w docFormat h
    have hl : 0 < w.nodes.length := List.length_pos.2 h
    unfold RosDocWriter.documentOutputs
    rw [if_pos hl]
    exact List.mem_append_right _ (List.mem_singleton.2 rfl)
  · intro docFormat h
    simp [manifestBaseName, h]
  · intro w docFormat
    have h0 : str "# ROS system documentation" ++ str "" = str "# ROS system documentation" := by
      have he : str "" = [] := rfl
      rw [he, List.append_nil]
    unfold manifestLines
    rw [h0]

/-- C7 witness: a writer with one tracked node emits the manifest, and the
markdown format names it README. -/
theorem C7_manifest_generation_witness :
    ¬ (RosDocWriter.run [str "/x"] []).nodes = [] ∧
    (manifestFileName MARKDOWN, manifestFileLines (RosDocWriter.run [str "/x"] []) MARKDOWN)
      ∈ (RosDocWriter.run [str "/x"] []).documentOutputs MARKDOWN ∧
    ¬ MARKDOWN = HTML ∧
    manifestBaseName MARKDOWN = str "README" := by
  refine ⟨by decide, ?_, by decide, ?_⟩
  · exact C7_manifest_generation.2.1 (RosDocWriter.run [str "/x"] []) MARKDOWN (by decide)
  · exact C7_manifest_generation.2.2.2.2.1 MARKDOWN (by decide)

/-! ## Balance of the list tags emitted by MarkdownToHtml.convert -/

theorem count_concat_str (l : List Str) (x c : Str) :
    (l ++ [x]).count c = l.count c + (if x = c then 1 else 0) := by
  rw [List.count_append, List.count_singleton]
  by_cases h : x = c
  · simp [h]
  · simp [h]

theorem cons2_ne (c1 c2 c1' c2' : Char) (xs ys : List Char) (h : ¬ c2 = c2') :
    ¬ (c1 :: c2 :: xs) = (c1' :: c2' :: ys) := by
  intro he
  injection he with e1 e2
  injection e2 with e3 e4
  exact h e3

theorem emitted_h2_ne_open (x : Str) : ¬ (str "<h2>" ++ x ++ str "</h2>") = str "<ul>" :=
  cons2_ne '<' 'h' '<' 'u' ('2' :: '>' :: (x ++ str "</h2>")) ('l' :: '>' :: []) (by decide)

theorem emitted_h2_ne_close (x : Str) : ¬ (str "<h2>" ++ x ++ str "</h2>") = str "</ul>" :=
  cons2_ne '<' 'h' '<' '/' ('2' :: '>' :: (x ++ str "</h2>")) ('u' :: 'l' :: '>' :: []) (by decide)

theorem emitted_h1_ne_open (x : Str) : ¬ (str "<h1>" ++ x ++ str "</h1>") = str "<ul>" :=
  cons2_ne '<' 'h' '<' 'u' ('1' :: '>' :: (x ++ str "</h1>")) ('l' :: '>' :: []) (by decide)

theorem emitted_h1_ne_close (x : Str) : ¬ (str "<h1>" ++ x ++ str "</h1>") = str "</ul>" :=
  cons2_ne '<' 'h' '<' '/' ('1' :: '>' :: (x ++ str "</h1>")) ('u' :: 'l' :: '>' :: []) (by decide)

theorem emitted_li_ne_open (x : Str) : ¬ (str "<li>" ++ x ++ str "</li>") = str "<ul>" :=
  cons2_ne '<' 'l' '<' 'u' ('i' :: '>' :: (x ++ str "</li>")) ('l' :: '>' :: []) (by decide)

theorem emitted_li_ne_close (x : Str) : ¬ (str "<li>" ++ x ++ str "</li>") = str "</ul>" :=
  cons2_ne '<' 'l' '<' '/' ('i' :: '>' :: (x ++ str "</li>")) ('u' :: 'l' :: '>' :: []) (by decide)

theorem emitted_p_ne_open (x : Str) : ¬ (str "<p>" ++ x ++ str "</p>") = str "<ul>" :=
  cons2_ne '<' 'p' '<' 'u' ('>' :: (x ++ str "</p>")) ('l' :: '>' :: []) (by decide)

theorem emitted_p_ne_close (x : Str) : ¬ (str "<p>" ++ x ++ str "</p>") = str "</ul>" :=
  cons2_ne '<' 'p' '<' '/' ('>' :: (x ++ str "</p>")) ('u' :: 'l' :: '>' :: []) (by decide)

theorem blank_ne_open (line : Str) (h : ¬ (pyStrip line).length > 0) : ¬ line = str "<ul>" := by
  intro he
  subst he
  exact h (by decide)

theorem blank_ne_close (line : Str) (h : ¬ (pyStrip line).length > 0) : ¬ line = str "</ul>" := by
  intro he
  subst he
  exact h (by decide)

theorem takeCount_le_append (l : List Str) (x : Str)
    (h : ∀ n, ((l.take n).count (str "</ul>")) ≤ ((l.take n).count (str "<ul>")))
    (hw : (l ++ [x]).count (str "</ul>") ≤ (l ++ [x]).count (str "<ul>")) :
    ∀ n, (((l ++ [x]).take n).count (str "</ul>")) ≤ (((l ++ [x]).take n).count (str "<ul>")) := by
  intro n
  rcases le_or_lt n l.length with hn | hn
  · rw [List.take_append_of_le_length hn]
    exact h n
  · have hlen : (l ++ [x]).length ≤ n := by
      rw [List.length_append]
      simp only [List.length_cons, List.length_nil]
      omega
    rw [List.take_of_length_le hlen]
    exact hw

theorem inv_after_close_nontag (acc : List Str) (b : Bool) (x : Str)
    (hx1 : ¬ x = str "<ul>") (hx2 : ¬ x = str "</ul>")
    (h1 : acc.count (str "<ul>") = acc.count (str "</ul>") + (if b then 1 else 0))
    (h2 : ∀ n, (acc.take n).count (str "</ul>") ≤ (acc.take n).count (str "<ul>")) :
    ((if b then acc ++ [str "</ul>"] else acc) ++ [x]).count (str "<ul>")
      = ((if b then acc ++ [str "</ul>"] else acc) ++ [x]).count (str "</ul>")
        + (if (false : Bool) then 1 else 0) ∧
    ∀ n, (((if b then acc ++ [str "</ul>"] else acc) ++ [x]).take n).count (str "</ul>")
      ≤ (((if b then acc ++ [str "</ul>"] else acc) ++ [x]).take n).count (str "<ul>") := by
  have e1 : (if (str "</ul>") = str "<ul>" then 1 else 0) = 0 := by decide
  have e2 : (if (str "</ul>") = str "</ul>" then 1 else 0) = 1 := by decide
  cases b with
  | false =>
    simp only [Bool.false_eq_true, reduceIte] at h1 ⊢
    constructor
    · simp only [count_concat_str, if_neg hx1, if_neg hx2, e1, e2, if_true, if_false]
      omega
    · apply takeCount_le_append acc x h2
      simp only [count_concat_str, if_neg hx1, if_neg hx2, e1, e2, if_true, if_false]
      omega
  | true =>
    simp only [Bool.false_eq_true, reduceIte] at h1 ⊢
    have hpre : ∀ n, ((acc ++ [str "</ul>"]).take n).count (str "</ul>")
        ≤ ((acc ++ [str "</ul>"]).take n).count (str "<ul>") := by
      apply takeCount_le_append acc _ h2
      simp only [count_concat_str, e1, e2, if_true, if_false]
      omega
    constructor
    · simp only [count_concat_str, if_neg hx1, if_neg hx2, e1, e2, if_true, if_false]
      omega
    · apply takeCount_le_append _ x hpre
      simp only [count_concat_str, if_neg hx1, if_neg hx2, e1, e2, if_true, if_false]
      omega

theorem inv_after_open_entry (acc : List Str) (b : Bool) (x : Str)
    (hx1 : ¬ x = str "<ul>") (hx2 : ¬ x = str "</ul>")
    (h1 : acc.count (str "<ul>") = acc.count (str "</ul>") + (if b then 1 else 0))
    (h2 : ∀ n, (acc.take n).count (str "</ul>") ≤ (acc.take n).count (str "<ul>")) :
    ((if b then acc else acc ++ [str "<ul>"]) ++ [x]).count (str "<ul>")
      = ((if b then acc else acc ++ [str "<ul>"]) ++ [x]).count (str "</ul>")
        + (if (true : Bool) then 1 else 0) ∧
    ∀ n, (((if b then acc else acc ++ [str "<ul>"]) ++ [x]).take n).count (str "</ul>")
      ≤ (((if b then acc else acc ++ [str "<ul>"]) ++ [x]).take n).count (str "<ul>") := by
  have e3 : (if (str "<ul>") = str "<ul>" then 1 else 0) = 1 := by decide
  have e4 : (if (str "<ul>") = str "</ul>" then 1 else 0) = 0 := by decide
  cases b with
  | true =>
    simp only [Bool.false_eq_true, reduceIte] at h1 ⊢
    constructor
    · simp only [count_concat_str, if_neg hx1, if_neg hx2, e3, e4, if_true, if_false]
      omega
    · apply takeCount_le_append acc x h2
      simp only [count_concat_str, if_neg hx1, if_neg hx2, e3, e4, if_true, if_false]
      omega
  | false =>
    simp only [Bool.false_eq_true, reduceIte] at h1 ⊢
    have hpre : ∀ n, ((acc ++ [str "<ul>"]).take n).count (str "</ul>")
        ≤ ((acc ++ [str "<ul>"]).take n).count (str "<ul>") := by
      apply takeCount_le_append acc _ h2
      simp only [count_concat_str, e3, e4, if_true, if_false]
      omega
    constructor
    · simp only [count_concat_str, if_neg hx1, if_neg hx2, e3, e4, if_true, if_false]
      omega
    · apply takeCount_le_append _ x hpre
      simp only [count_concat_str, if_neg hx1, if_neg hx2, e3, e4, if_true, if_false]
      omega

theorem convertStep_inv (acc : List Str) (b : Bool) (line : Str)
    (h1 : acc.count (str "<ul>") = acc.count (str "</ul>") + (if b then 1 else 0))
    (h2 : ∀ n, (acc.take n).count (str "</ul>") ≤ (acc.take n).count (str "<ul>")) :
    ((convertStep (acc, b) line).1.count (str "<ul>")
       = (convertStep (acc, b) line).1.count (str "</ul>")
         + (if (convertStep (acc, b) line).2 then 1 else 0)) ∧
    (∀ n, ((convertStep (acc, b) line).1.take n).count (str "</ul>")
       ≤ ((convertStep (acc, b) line).1.take n).count (str "<ul>")) := by
  unfold convertStep
  dsimp only
  by_cases hA : List.isPrefixOf (str "## ") line = true
  · simp only [hA, reduceIte]
    exact inv_after_close_nontag acc b _ (emitted_h2_ne_open _) (emitted_h2_ne_close _) h1 h2
  · simp only [Bool.not_eq_true] at hA
    simp only [hA, Bool.false_eq_true, reduceIte]
    by_cases hB : List.isPrefixOf (str "# ") line = true
    · simp only [hB, reduceIte]
      exact inv_after_close_nontag acc b _ (emitted_h1_ne_open _) (emitted_h1_ne_close _) h1 h2
    · simp only [Bool.not_eq_true] at hB
      simp only [hB, Bool.false_eq_true, reduceIte]
      by_cases hC : List.isPrefixOf (str "- ") line = true
      · simp only [hC, reduceIte]
        exact inv_after_open_entry acc b _ (emitted_li_ne_open _) (emitted_li_ne_close _) h1 h2
      · simp only [Bool.not_eq_true] at hC
        simp only [hC, Bool.false_eq_true, reduceIte]
        by_cases hD : (pyStrip line).length > 0
        · rw [if_pos hD]
          exact inv_after_close_nontag acc b _ (emitted_p_ne_open _) (emitted_p_ne_close _) h1 h2
        · rw [if_neg hD]
          exact inv_after_close_nontag acc b line (blank_ne_open line hD)
            (blank_ne_close line hD) h1 h2

theorem foldl_inv (lines : List Str) :
    ∀ (acc : List Str) (b : Bool),
      (acc.count (str "<ul>") = acc.count (str "</ul>") + (if b then 1 else 0)) →
      (∀ n, (acc.take n).count (str "</ul>") ≤ (acc.take n).count (str "<ul>")) →
      ((lines.foldl convertStep (acc, b)).1.count (str "<ul>")
         = (lines.foldl convertStep (acc, b)).1.count (str "</ul>")
           + (if (lines.foldl convertStep (acc, b)).2 then 1 else 0)) ∧
      (∀ n, ((lines.foldl convertStep (acc, b)).1.take n).count (str "</ul>")
         ≤ ((lines.foldl convertStep (acc, b)).1.take n).count (str "<ul>")) := by
  induction lines with
  | nil =>
    intro acc b h1 h2
    exact ⟨h1, h2⟩
  | cons line rest ih =>
    intro acc b h1 h2
    rw [List.foldl_cons]
    obtain ⟨hc1, hc2⟩ := convertStep_inv acc b line h1 h2
    rcases hp : convertStep (acc, b) line with ⟨acc2, b2⟩
    rw [hp] at hc1 hc2
    exact ih acc2 b2 hc1 hc2

theorem convertStep_extends (st : List Str × Bool) (line : Str) :
    ∃ d : List Str, (convertStep st line).1 = st.1 ++ d := by
  obtain ⟨acc, b⟩ := st
  unfold convertStep
  dsimp only
  repeat' split
  all_goals dsimp only
  all_goals first
    | exact ⟨_, rfl⟩
    | exact ⟨_, List.append_assoc _ _ _⟩

theorem foldl_extends (lines : List Str) :
    ∀ st : List Str × Bool, ∃ d : List Str, (lines.foldl convertStep st).1 = st.1 ++ d := by
  induction lines with
  | nil =>
    intro st
    exact ⟨[], by simp⟩
  | cons line rest ih =>
    intro st
    rw [List.foldl_cons]
    obtain ⟨d1, hd1⟩ := convertStep_extends st line
    obtain ⟨d2, hd2⟩ := ih (convertStep st line)
    refine ⟨d1 ++ d2, ?_⟩
    rw [hd2, hd1, List.append_assoc]

/-- C10: for every input, the converted document starts with the html
opening line, ends with the html closing line, emits as many closing list
tags as opening ones, and in every prefix the closing tags never outnumber
the opening ones, so every opened list is closed later, also when the
input ends inside a list. -/
theorem C10_convert_balanced :
    ∀ lines : List Str,
      (MarkdownToHtml.convert lines).head? = some (str "<html>") ∧
      (MarkdownToHtml.convert lines).getLast? = some (str "</html>") ∧
      (MarkdownToHtml.convert lines).count (str "<ul>")
        = (MarkdownToHtml.convert lines).count (str "</ul>") ∧
      (∀ n, ((MarkdownToHtml.convert lines).take n).count (str "</ul>")
        ≤ ((MarkdownToHtml.convert lines).take n).count (str "<ul>")) := by
  intro lines
  unfold MarkdownToHtml.convert
  dsimp only
  have hini1 : ([str "<html>", str "<head>" ++ str "</head>"] : List Str).count (str "<ul>")
      = ([str "<html>", str "<head>" ++ str "</head>"] : List Str).count (str "</ul>")
        + (if (false : Bool) then 1 else 0) := by decide
  have hini2 : ∀ n, (([str "<html>", str "<head>" ++ str "</head>"] : List Str).take n).count
        (str "</ul>")
      ≤ (([str "<html>", str "<head>" ++ str "</head>"] : List Str).take n).count (str "<ul>") := by
    intro n
    have hs := (List.take_sublist n
      ([str "<html>", str "<head>" ++ str "</head>"] : List Str)).count_le (str "</ul>")
    have h0 : ([str "<html>", str "<head>" ++ str "</head>"] : List Str).count (str "</ul>")
        = 0 := by decide
    rw [h0] at hs
    have hz := Nat.le_zero.1 hs
    rw [hz]
    exact Nat.zero_le _
  obtain ⟨hc1, hc2⟩ := foldl_inv lines [str "<html>", str "<head>" ++ str "</head>"] false
    hini1 hini2
  obtain ⟨d, hd⟩ := foldl_extends lines ([str "<html>", str "<head>" ++ str "</head>"], false)
  rcases hres : lines.foldl convertStep ([str "<html>", str "<head>" ++ str "</head>"], false)
    with ⟨resAcc, resFlag⟩
  rw [hres] at hc1 hc2 hd
  dsimp only at hc1 hc2 hd ⊢
  obtain ⟨g1, g2⟩ := inv_after_close_nontag resAcc resFlag (str "</html>")
    (by decide) (by decide) hc1 hc2
  refine ⟨?_, ?_, ?_, ?_⟩
  · rw [hd]
    cases resFlag <;> simp
  · exact List.getLast?_concat _
  · simpa using g1
  · exact g2
